import Mathlib

/- Formal model of `cli/anymd/scripts/batch-ocr.py`: the hybrid OCR batch
pipeline.  Pure data is embedded directly; effectful collaborators (the
Tesseract engine, the chandra VLM, the filesystem, wall-clock time) are
modelled as explicit function parameters, state records and an explicit
filesystem map.  Machine floats used by the script only in the diacritics
ratio test are modelled with exact rationals. -/

namespace BatchOcr

/- ---------------------------------------------------------------------
Characters and texts.  The script inspects a character only through
`str.isalpha`, membership in the `DIACRITICS` frozenset, and whitespace
(for `str.strip`), so a character is modelled by those three attributes. -/

structure Ch where
  isAlpha : Bool
  isDiacritic : Bool
  isSpace : Bool
deriving DecidableEq

abbrev Text := List Ch

/-- Count of alphabetic characters: `sum(1 for c in text if c.isalpha())`. -/
def alphaCount (t : Text) : Nat := t.countP (fun c => c.isAlpha)

/-- Count of characters belonging to the `DIACRITICS` frozenset. -/
def diacriticsCount (t : Text) : Nat := t.countP (fun c => c.isDiacritic)

/-- `MIN_DIACRITICS_RATIO = 0.15`, as an exact rational. -/
def minDiacriticsRat : ℚ := 15 / 100

/-- `MIN_CHARS_FOR_PAGE = 50`. -/
def MIN_CHARS_FOR_PAGE : Nat := 50

/-- `NATIVE_TEXT_THRESHOLD = 50`. -/
def NATIVE_TEXT_THRESHOLD : Nat := 50

/-- Python `str.strip()`: remove leading and trailing whitespace. -/
def strip (t : Text) : Text :=
  ((t.dropWhile (fun c => c.isSpace)).reverse.dropWhile (fun c => c.isSpace)).reverse

/-- `_tesseract_quality_ok`: at least `MIN_CHARS_FOR_PAGE` alphabetic
characters, and diacritics/alphabetic ratio at least `MIN_DIACRITICS_RATIO`. -/
def tesseract_quality_ok (text : Text) : Bool :=
  let alpha_count := alphaCount text
  if alpha_count < MIN_CHARS_FOR_PAGE then false
  else decide (minDiacriticsRat ≤ (diacriticsCount text : ℚ) / (alpha_count : ℚ))

/- ---------------------------------------------------------------------
Pages and extraction.  Rendering, flattening and margin-cropping produce
an image whose pixel content the core never inspects again (it is only
handed to an OCR engine), so images are abstract identifiers and each page
carries the image its rendering would produce. -/

abbrev Img := Nat

structure Page where
  embedded : Text
  image : Img
deriving DecidableEq

/-- `_render_page`: native-text shortcut when the embedded text layer has at
least `NATIVE_TEXT_THRESHOLD` alphabetic characters, otherwise render the
page (flatten + render + crop, abstracted to `pg.image`) with empty text. -/
def render_page (pg : Page) : Option Img × Text :=
  if NATIVE_TEXT_THRESHOLD ≤ alphaCount pg.embedded then
    (none, strip pg.embedded)
  else
    (some pg.image, [])

/- ---------------------------------------------------------------------
The fallback (chandra VLM) engine state.  The real state holds the loaded
model, processor and formatted prompt; the model only needs the `loaded`
flag.  `loadCount` instruments the number of times the expensive load body
(below the early return in `_load_chandra`) actually runs. -/

structure ChandraState where
  loaded : Bool := false
  loadCount : Nat := 0
deriving DecidableEq

/-- `_load_chandra`: early return when already loaded, otherwise perform the
load (instrumented by `loadCount`) and mark the state loaded. -/
def load_chandra (s : ChandraState) : ChandraState :=
  if s.loaded then s else { loaded := true, loadCount := s.loadCount + 1 }

/-- Per-page engine tag, as logged and counted by `PageCounts`. -/
inductive Tag
  | tess
  | vlm
  | txt
deriving DecidableEq

/-- The per-page engine selection in the body of the page loop of
`_ocr_one_file`: run Tesseract on a rendered image and gate it, falling back
to the chandra VLM (loading it on first use); a native-text page
short-circuits to its embedded text.  The two engines are the collaborator
functions `tess` and `chandra`. -/
def processPage (tess chandra : Img → Text) (cs : ChandraState) :
    Option Img × Text → Text × Tag × ChandraState
  | (some image, _) =>
    let tess_text := tess image
    if tesseract_quality_ok tess_text then (tess_text, Tag.tess, cs)
    else (chandra image, Tag.vlm, load_chandra cs)
  | (none, native_text) => (native_text, Tag.txt, cs)

/- ---------------------------------------------------------------------
Filesystem model.  Output artifacts are keyed by their file name (Python
strings, modelled as character lists); the content of an artifact is a
`Text`.  `FS.set` models writing/overwriting, `FS.del` models `unlink`. -/

abbrev FName := List Char

abbrev FS := FName → Option Text

def FS.set (fs : FS) (n : FName) (c : Text) : FS :=
  fun m => if m = n then some c else fs m

def FS.del (fs : FS) (n : FName) : FS :=
  fun m => if m = n then none else fs m

/-- `md_path = OUTPUT_BASE / f'{unique_name}.md'` (the `OUTPUT_BASE` prefix is
common to every artifact and is dropped). -/
def mdPath (name : FName) : FName := name ++ ['.', 'm', 'd']

/-- `tmp_path = OUTPUT_BASE / f'{unique_name}.md.tmp'`. -/
def tmpPath (name : FName) : FName := name ++ ['.', 'm', 'd', '.', 't', 'm', 'p']

/- ---------------------------------------------------------------------
Progress reporting (`Progress`, `_save_progress`).  Wall-clock derived
fields (`elapsed`, `avg_per_file`, `eta`, `updated`) are time formatting
only and are omitted; `current_page` is the `'{p_idx+1}/{num_pages}'`
string, modelled as the pair, with `none` standing for `'-'`. -/

structure Entry where
  name : FName
  pages : Nat
  duration : Nat
  per_page : Nat
deriving DecidableEq

structure Progress where
  done : Nat
  total : Nat
  errors : Nat
  current_file : FName
  current_page : Option (Nat × Nat)
  current_pages_total : Nat
  recent_files : List Entry
deriving DecidableEq

structure Snapshot where
  done : Nat
  total : Nat
  errors : Nat
  pct : ℚ
  current_file : FName
  current_page : Option (Nat × Nat)
  current_pages_total : Nat
  recent_files : List Entry
deriving DecidableEq

/-- `_save_progress`: serializes a snapshot; `recent_files` is truncated to
the last ten entries (`p.recent_files[-10:]`); `pct` is
`p.done / max(p.total, 1) * 100` (the script additionally rounds it to one
decimal for display). -/
def save_progress (p : Progress) : Snapshot :=
  { done := p.done
    total := p.total
    errors := p.errors
    pct := (p.done : ℚ) / (max p.total 1 : ℚ) * 100
    current_file := p.current_file
    current_page := p.current_page
    current_pages_total := p.current_pages_total
    recent_files := p.recent_files.drop (p.recent_files.length - 10) }

/- ---------------------------------------------------------------------
Fault model.  The script's collaborators can raise: opening the document
(`pdfium.PdfDocument`), the prefetched extraction task (`_render_page`
running in the background worker, re-raised by `next_future.result()`),
and the per-page OCR/write work.  Each fault site is an oracle. -/

structure Faults where
  openFails : Bool := false
  extractFails : Nat → Bool := fun _ => false
  ocrFails : Nat → Bool := fun _ => false

/-- The background-worker task `executor.submit(_render_page, doc, p_idx)`:
its value is `_render_page`'s result, or an error when extraction fails or
the index is out of range (`doc[page_idx]` raising).  The error is observed
only when the future is awaited. -/
def render_task (flt : Faults) (doc : List Page) (p_idx : Nat) :
    Except Unit (Option Img × Text) :=
  if flt.extractFails p_idx then Except.error ()
  else
    match doc.get? p_idx with
    | some pg => Except.ok (render_page pg)
    | none => Except.error ()

/-- Orchestrator-side context passed into `_ocr_one_file` for progress lines:
`done_count`, the 1-based pending index `idx`, `total`, the running `errors`
count and the display name. -/
structure PageCtx where
  done_count : Nat
  idx : Nat
  total : Nat
  errors : Nat
  display : FName

/-- The `Progress` record saved at the top of each page iteration. -/
def pageProg (ctx : PageCtx) (p_idx num_pages : Nat) (recent : List Entry) :
    Progress :=
  { done := ctx.done_count + ctx.idx - 1
    total := ctx.total
    errors := ctx.errors
    current_file := ctx.display
    current_page := some (p_idx + 1, num_pages)
    current_pages_total := num_pages
    recent_files := recent }

/-- The blank-line separator written between consecutive pages. -/
def pageSep : Text := [⟨false, false, true⟩, ⟨false, false, true⟩]

structure LoopOut where
  fs : FS
  content : Text
  cs : ChandraState
  snaps : List Snapshot
  ok : Bool

/-- The page loop of `_ocr_one_file`.  `r` is the number of pages still to
process, `p_idx` the current index, `next` the prefetched extraction future,
`content` what has been written to `tmp` so far.  Per iteration: save
progress, await the prefetched extraction (a raised extraction error ends
the loop on the error path), submit the next page's extraction when one
remains, run the engine selection, append the page text (preceded by the
separator except for page 0) and flush it to `tmp`. -/
def ocrLoop (tess chandra : Img → Text) (flt : Faults) (doc : List Page)
    (num_pages : Nat) (tmp : FName) (ctx : PageCtx) (recent : List Entry) :
    Nat → Nat → Except Unit (Option Img × Text) → Text → ChandraState → FS →
      List Snapshot → LoopOut
  | 0, _, _, content, cs, fs, snaps => ⟨fs, content, cs, snaps, true⟩
  | r + 1, p_idx, next, content, cs, fs, snaps =>
    let snaps' := snaps ++ [save_progress (pageProg ctx p_idx num_pages recent)]
    match next with
    | Except.error _ => ⟨fs, content, cs, snaps', false⟩
    | Except.ok extracted =>
      let next' := if p_idx + 1 < num_pages then render_task flt doc (p_idx + 1) else next
      if flt.ocrFails p_idx then ⟨fs, content, cs, snaps', false⟩
      else
        let pr := processPage tess chandra cs extracted
        let content' := content ++ (if 0 < p_idx then pageSep else []) ++ pr.1
        ocrLoop tess chandra flt doc num_pages tmp ctx recent r (p_idx + 1) next'
          content' pr.2.2 (fs.set tmp content') snaps'

/-- One input file of the batch: its output name (computed by
`_to_output_name` from the document path), display name (`Path(pdf).stem`),
page list, wall-clock processing duration (abstract) and fault oracles. -/
structure FileSpec where
  name : FName
  display : FName
  doc : List Page
  duration : Nat
  faults : Faults

structure FileOut where
  fs : FS
  cs : ChandraState
  snaps : List Snapshot
  result : Except Unit Nat

/-- `_ocr_one_file`: open the document (before the `try` block — an open
failure propagates without touching the filesystem), create the empty
temporary file, submit page 0's extraction, drive the page loop, and on
success rename `tmp` to the final path; any error raised inside the `try`
deletes both the temporary and the final path before re-raising. -/
def ocr_one_file (tess chandra : Img → Text) (f : FileSpec) (cs : ChandraState)
    (ctx : PageCtx) (recent : List Entry) (fs : FS) : FileOut :=
  let md_path := mdPath f.name
  let tmp_path := tmpPath f.name
  if f.faults.openFails then ⟨fs, cs, [], Except.error ()⟩
  else
    let num_pages := f.doc.length
    let lo := ocrLoop tess chandra f.faults f.doc num_pages tmp_path ctx recent
      num_pages 0 (render_task f.faults f.doc 0) [] cs (fs.set tmp_path []) []
    if lo.ok then
      ⟨(lo.fs.del tmp_path).set md_path lo.content, lo.cs, lo.snaps,
        Except.ok num_pages⟩
    else
      ⟨(lo.fs.del tmp_path).del md_path, lo.cs, lo.snaps, Except.error ()⟩

/- ---------------------------------------------------------------------
Batch orchestrator (`_run_ocr`).  The state threads the filesystem, the
shared chandra state, counters and the rolling recent-file list.
Instrumentation fields record observable events: `visited` lists every
pending file the loop reached (skipped or processed), `attempted` the files
actually handed to `_ocr_one_file`, `errlog` the per-file error log lines,
`gcCount` the `_free_memory()` passes forced by the per-file error handler,
`completedFiles` the files completed this run, `snaps` every snapshot
written to the status artifact in order. -/

structure BatchSt where
  fs : FS
  cs : ChandraState
  done_count : Nat
  errors : Nat
  recent : List Entry
  snaps : List Snapshot
  visited : List FName
  attempted : List FName
  errlog : List FName
  completedFiles : Nat
  gcCount : Nat

/-- Batch state after the re-check finds the artifact already present: the
file is skipped (`done_count += 1`). -/
def skipSt (f : FileSpec) (st : BatchSt) : BatchSt :=
  { st with done_count := st.done_count + 1, visited := st.visited ++ [f.name] }

/-- Batch state after a successfully processed file: record the recent-file
entry (name, page count, duration, per-page duration) and save progress. -/
def okSt (total i : Nat) (f : FileSpec) (np : Nat) (out : FileOut)
    (st : BatchSt) : BatchSt :=
  { fs := out.fs, cs := out.cs, done_count := st.done_count,
    errors := st.errors,
    recent := st.recent ++ [⟨f.display, np, f.duration, f.duration / max np 1⟩],
    snaps := st.snaps ++ out.snaps ++ [save_progress
      { done := st.done_count + i, total := total, errors := st.errors,
        current_file := ['-'], current_page := none, current_pages_total := 0,
        recent_files :=
          st.recent ++ [⟨f.display, np, f.duration, f.duration / max np 1⟩] }],
    visited := st.visited ++ [f.name], attempted := st.attempted ++ [f.name],
    errlog := st.errlog, completedFiles := st.completedFiles + 1,
    gcCount := st.gcCount }

/-- Batch state after a failed file: count the error, log it, and force a
memory-reclamation pass. -/
def errSt (f : FileSpec) (out : FileOut) (st : BatchSt) : BatchSt :=
  { fs := out.fs, cs := out.cs, done_count := st.done_count,
    errors := st.errors + 1, recent := st.recent,
    snaps := st.snaps ++ out.snaps,
    visited := st.visited ++ [f.name], attempted := st.attempted ++ [f.name],
    errlog := st.errlog ++ [f.display], completedFiles := st.completedFiles,
    gcCount := st.gcCount + 1 }

/-- The `for i, pdf in enumerate(pending, 1)` loop of `_run_ocr`: re-check
the artifact immediately before each file and skip if already done;
otherwise process the file, and either append a recent-file entry and save
progress (success) or count, log and force memory reclamation (error). -/
def runLoop (tess chandra : Img → Text) (total : Nat) :
    List FileSpec → Nat → BatchSt → BatchSt
  | [], _, st => st
  | f :: rest, i, st =>
    if (st.fs (mdPath f.name)).isSome then
      runLoop tess chandra total rest (i + 1) (skipSt f st)
    else
      match (ocr_one_file tess chandra f st.cs
          ⟨st.done_count, i, total, st.errors, f.display⟩ st.recent st.fs).result with
      | Except.ok np =>
        runLoop tess chandra total rest (i + 1)
          (okSt total i f np (ocr_one_file tess chandra f st.cs
            ⟨st.done_count, i, total, st.errors, f.display⟩ st.recent st.fs) st)
      | Except.error _ =>
        runLoop tess chandra total rest (i + 1)
          (errSt f (ocr_one_file tess chandra f st.cs
            ⟨st.done_count, i, total, st.errors, f.display⟩ st.recent st.fs) st)

/-- `_run_ocr`: partition the classification list into already-done and
pending by checking the filesystem, short-circuit (saving a final snapshot
with `done = total, errors = 0`) when nothing is pending, otherwise drive
the loop starting from a fresh (unloaded) chandra state. -/
def run_ocr (tess chandra : Img → Text) (files : List FileSpec) (fs : FS) :
    BatchSt :=
  let total := files.length
  let done0 :=
    (files.filter (fun f => (fs (mdPath f.name)).isSome)).length
  let pending := files.filter (fun f => !(fs (mdPath f.name)).isSome)
  if pending.isEmpty then
    { fs := fs, cs := {}, done_count := total, errors := 0, recent := [],
      snaps := [save_progress
        { done := total, total := total, errors := 0, current_file := ['-'],
          current_page := none, current_pages_total := 0, recent_files := [] }],
      visited := [], attempted := [], errlog := [], completedFiles := 0,
      gcCount := 0 }
  else
    runLoop tess chandra total pending 1
      { fs := fs, cs := {}, done_count := done0, errors := 0, recent := [],
        snaps := [], visited := [], attempted := [], errlog := [],
        completedFiles := 0, gcCount := 0 }

/- ---------------------------------------------------------------------
Output-name derivation (`_to_output_name`).  A resolved filesystem path is
a list of components (each a character list containing no `'/'`).
`relative_to` strips the data-root prefix componentwise, failing (Python
`ValueError`) when the path is not below the root; `with_suffix('')` drops
the final component's suffix following pathlib's rule (the portion from the
last dot, provided that dot is neither leading nor trailing); `str(rel)`
joins components with `'/'`; finally every `'/'` is replaced by `'--'`. -/

abbrev PathSeg := List Char

/-- Position of the last `'.'` in a component, if any. -/
def lastDotPos (seg : PathSeg) : Option Nat :=
  ((List.range seg.length).filter
    (fun i => decide (seg.get? i = some '.'))).getLast?

/-- Pathlib stem: drop the suffix `name[i:]` when the last dot sits at
`0 < i < len(name) - 1`, else return the name unchanged. -/
def segStem (seg : PathSeg) : PathSeg :=
  match lastDotPos seg with
  | some i => if 0 < i ∧ i + 1 < seg.length then seg.take i else seg
  | none => seg

/-- `with_suffix('')` on a relative path: stem the last component. -/
def stemLast : List PathSeg → List PathSeg
  | [] => []
  | [s] => [segStem s]
  | s :: rest => s :: stemLast rest

/-- `Path.relative_to`: strip the root prefix componentwise. -/
def relativeTo : List PathSeg → List PathSeg → Option (List PathSeg)
  | [], p => some p
  | _ :: _, [] => none
  | d :: ds, p :: ps => if p = d then relativeTo ds ps else none

/-- `str(Path(...))`: join components with `'/'`. -/
def joinSegs (sep : List Char) : List (List Char) → List Char
  | [] => []
  | [s] => s
  | s :: rest => s ++ sep ++ joinSegs sep rest

/-- `str.replace('/', '--')`. -/
def replaceSlash : List Char → List Char
  | [] => []
  | c :: cs => (if c = '/' then ['-', '-'] else [c]) ++ replaceSlash cs

/-- `_to_output_name`: flatten the root-relative, suffix-stripped path with
`'--'` in place of `'/'`; fall back to the bare stem when the path does not
resolve below the data root. -/
def to_output_name (dataDir : List PathSeg) (path : List PathSeg) : List Char :=
  match relativeTo dataDir path with
  | some rel => replaceSlash (joinSegs ['/'] (stemLast rel))
  | none => segStem (path.getLastD [])

/- ---------------------------------------------------------------------
Sequential reference semantics for the page pipeline, following the spec's
words: each page is extracted and OCR'd strictly in sequence, with no
prefetch, and the output is the page texts joined by the blank-line
separator in ascending page order. -/

/-- Sequential per-page processing of a whole document (spec reference). -/
def seqProcessDoc (tess chandra : Img → Text) (cs : ChandraState) :
    List Page → List Text × ChandraState
  | [] => ([], cs)
  | pg :: rest =>
    let pr := processPage tess chandra cs (render_page pg)
    let further := seqProcessDoc tess chandra pr.2.2 rest
    (pr.1 :: further.1, further.2)

/-- Concatenation of page texts with the blank-line separator between
consecutive pages (spec reference). -/
def joinPages (ts : List Text) : Text :=
  match ts with
  | [] => []
  | t :: rest => t ++ (rest.map (fun u => pageSep ++ u)).flatten

/-- Accumulated form of `joinPages` for a loop starting at page `p`. -/
def joinFrom (p : Nat) (ts : List Text) : Text :=
  if p = 0 then joinPages ts else (ts.map (fun u => pageSep ++ u)).flatten

/- ---------------------------------------------------------------------
Basic lemmas about the filesystem model and artifact paths. -/

theorem FS.get_set_self (fs : FS) (n : FName) (c : Text) : fs.set n c n = some c := by
  simp [FS.set]

theorem FS.get_set_ne (fs : FS) (n m : FName) (c : Text) (h : m ≠ n) :
    fs.set n c m = fs m := by
  simp [FS.set, h]

theorem FS.get_del_self (fs : FS) (n : FName) : fs.del n n = none := by
  simp [FS.del]

theorem FS.get_del_ne (fs : FS) (n m : FName) (h : m ≠ n) : fs.del n m = fs m := by
  simp [FS.del, h]

theorem mdPath_inj {a b : FName} (h : mdPath a = mdPath b) : a = b := by
  simpa [mdPath] using h

theorem mdPath_ne_tmpPath (a b : FName) : mdPath a ≠ tmpPath b := by
  intro h
  have h2 := congrArg List.reverse h
  simp [mdPath, tmpPath] at h2

/- ---------------------------------------------------------------------
C1 and C2: the per-page quality gate and the native-text shortcut. -/

/-- C1: for every rendered page, the fast engine runs first and its output is
accepted exactly when its alphabetic count reaches 50 and its
diacritics-to-alphabetic ratio reaches 0.15; on gate failure the fallback
engine is invoked on the same image and its output is used verbatim, with
no quality check (and the fallback state is loaded on first use). -/
theorem c1_quality_gated_selection (tess chandra : Img → Text)
    (cs : ChandraState) (img : Img) (native_text : Text) :
    (tesseract_quality_ok (tess img) = true ↔
      MIN_CHARS_FOR_PAGE ≤ alphaCount (tess img) ∧
        minDiacriticsRat ≤
          (diacriticsCount (tess img) : ℚ) / (alphaCount (tess img) : ℚ)) ∧
    processPage tess chandra cs (some img, native_text) =
      (if tesseract_quality_ok (tess img) = true then (tess img, Tag.tess, cs)
       else (chandra img, Tag.vlm, load_chandra cs)) := by
  constructor
  · unfold tesseract_quality_ok
    by_cases h : alphaCount (tess img) < MIN_CHARS_FOR_PAGE
    · simp only [h, if_true]
      constructor
      · intro hf; exact absurd hf (by simp)
      · intro ⟨h1, _⟩; omega
    · simp only [h, if_false, decide_eq_true_eq]
      constructor
      · intro hr; exact ⟨Nat.le_of_not_lt h, hr⟩
      · intro ⟨_, hr⟩; exact hr
  · unfold processPage
    by_cases h : tesseract_quality_ok (tess img) = true <;> simp [h]

/-- C2: a page whose embedded text layer has at least 50 alphabetic
characters is returned as trimmed native text (tag `txt`) without rendering
and without consulting either OCR engine or the fallback state; rendering
happens exactly when the embedded count is below 50. -/
theorem c2_native_shortcut (tess chandra : Img → Text) (cs : ChandraState)
    (pg : Page) :
    (NATIVE_TEXT_THRESHOLD ≤ alphaCount pg.embedded →
      render_page pg = (none, strip pg.embedded) ∧
      processPage tess chandra cs (render_page pg) =
        (strip pg.embedded, Tag.txt, cs)) ∧
    (alphaCount pg.embedded < NATIVE_TEXT_THRESHOLD →
      render_page pg = (some pg.image, [])) := by
  constructor
  · intro h
    have hr : render_page pg = (none, strip pg.embedded) := by
      unfold render_page; simp [h]
    exact ⟨hr, by rw [hr]; rfl⟩
  · intro h
    unfold render_page
    simp [Nat.not_le.mpr h]

/-- Concrete characters used by witnesses: a plain alphabetic character, an
alphabetic diacritic, and a non-alphabetic character. -/
def chA : Ch := ⟨true, false, false⟩

def chD : Ch := ⟨true, true, false⟩

def chX : Ch := ⟨false, false, false⟩

/-- C2 witness: a page with 50 embedded alphabetic characters takes the
native shortcut, and a page with none is rendered. -/
theorem c2_native_shortcut_witness :
    (render_page ⟨List.replicate 50 chA, 7⟩ =
        (none, strip (List.replicate 50 chA)) ∧
      processPage (fun _ => []) (fun _ => [chX]) {}
          (render_page ⟨List.replicate 50 chA, 7⟩) =
        (strip (List.replicate 50 chA), Tag.txt, {}) ∧
    render_page ⟨[chX], 3⟩ = (some 3, [])) := by
  refine ⟨?_, ?_, ?_⟩
  · exact ((c2_native_shortcut (fun _ => []) (fun _ => [chX]) {}
      ⟨List.replicate 50 chA, 7⟩).1 (by decide)).1
  · exact ((c2_native_shortcut (fun _ => []) (fun _ => [chX]) {}
      ⟨List.replicate 50 chA, 7⟩).1 (by decide)).2
  · exact (c2_native_shortcut (fun _ => []) (fun _ => [chX]) {}
      ⟨[chX], 3⟩).2 (by decide)

/- ---------------------------------------------------------------------
C10: a zero-page document. -/

/-- C10: a zero-page document completes successfully with an empty artifact
renamed into place at the final path; the extraction of page index 0 is
still submitted before the loop and is an error (the index is out of
range), but since the loop never awaits it the error is discarded. -/
theorem c10_zero_pages (tess chandra : Img → Text) (cs : ChandraState)
    (ctx : PageCtx) (recent : List Entry) (fs : FS) (name display : FName)
    (dur : Nat) (flt : Faults) (hopen : flt.openFails = false) :
    (ocr_one_file tess chandra ⟨name, display, [], dur, flt⟩ cs ctx recent
        fs).result = Except.ok 0 ∧
    (ocr_one_file tess chandra ⟨name, display, [], dur, flt⟩ cs ctx recent
        fs).fs (mdPath name) = some [] ∧
    (ocr_one_file tess chandra ⟨name, display, [], dur, flt⟩ cs ctx recent
        fs).fs (tmpPath name) = none ∧
    render_task flt [] 0 = Except.error () := by
  have hne : tmpPath name ≠ mdPath name := (mdPath_ne_tmpPath name name).symm
  refine ⟨?_, ?_, ?_, ?_⟩
  · simp [ocr_one_file, hopen, ocrLoop]
  · simp [ocr_one_file, hopen, ocrLoop, FS.set]
  · simp [ocr_one_file, hopen, ocrLoop, FS.set, FS.del, hne]
  · cases hE : flt.extractFails 0 <;> simp [render_task, hE]

/-- C10 witness: concrete zero-page file. -/
theorem c10_zero_pages_witness :
    (ocr_one_file (fun _ => []) (fun _ => []) ⟨['f'], ['f'], [], 3, {}⟩ {}
        ⟨0, 1, 1, 0, ['f']⟩ [] (fun _ => none)).result = Except.ok 0 ∧
    (ocr_one_file (fun _ => []) (fun _ => []) ⟨['f'], ['f'], [], 3, {}⟩ {}
        ⟨0, 1, 1, 0, ['f']⟩ [] (fun _ => none)).fs (mdPath ['f']) = some [] ∧
    (ocr_one_file (fun _ => []) (fun _ => []) ⟨['f'], ['f'], [], 3, {}⟩ {}
        ⟨0, 1, 1, 0, ['f']⟩ [] (fun _ => none)).fs (tmpPath ['f']) = none ∧
    render_task {} [] 0 = Except.error () :=
  c10_zero_pages (fun _ => []) (fun _ => []) {} ⟨0, 1, 1, 0, ['f']⟩ []
    (fun _ => none) ['f'] ['f'] 3 {} rfl

/- ---------------------------------------------------------------------
C9: the output-name mapping.  Helper lemmas establish that flattening with
`'--'` is injective on component lists that avoid the dash character. -/

theorem joinSegs_cons₂ (sep : List Char) (s r : List Char) (rs : List (List Char)) :
    joinSegs sep (s :: r :: rs) = s ++ sep ++ joinSegs sep (r :: rs) := rfl

theorem replaceSlash_append (a b : List Char) :
    replaceSlash (a ++ b) = replaceSlash a ++ replaceSlash b := by
  induction a with
  | nil => rfl
  | cons c cs ih => simp [replaceSlash, ih]

theorem replaceSlash_no_slash (a : List Char) (h : '/' ∉ a) :
    replaceSlash a = a := by
  induction a with
  | nil => rfl
  | cons c cs ih =>
    have h1 : ¬(c = '/') := fun hc => h (by simp [hc])
    have h2 : '/' ∉ cs := fun hc => h (List.mem_cons_of_mem _ hc)
    simp [replaceSlash, h1, ih h2]

theorem replaceSlash_joinSegs (segs : List (List Char))
    (h : ∀ s ∈ segs, '/' ∉ s) :
    replaceSlash (joinSegs ['/'] segs) = joinSegs ['-', '-'] segs := by
  induction segs with
  | nil => rfl
  | cons s rest ih =>
    cases rest with
    | nil => exact replaceSlash_no_slash s (h s (by simp))
    | cons r rs =>
      rw [joinSegs_cons₂, joinSegs_cons₂, replaceSlash_append, replaceSlash_append,
        replaceSlash_no_slash s (h s (by simp)),
        ih (fun t ht => h t (List.mem_cons_of_mem _ ht))]
      rfl

theorem seg_append_inj {x y t1 t2 : List Char}
    (hx : '-' ∉ x) (hy : '-' ∉ y)
    (h1 : t1 = [] ∨ ∃ r, t1 = '-' :: r) (h2 : t2 = [] ∨ ∃ r, t2 = '-' :: r)
    (h : x ++ t1 = y ++ t2) : x = y ∧ t1 = t2 := by
  induction x generalizing y with
  | nil =>
    cases y with
    | nil => exact ⟨rfl, h⟩
    | cons b ys =>
      rcases h1 with h1 | ⟨r, h1⟩
      · subst h1; simp at h
      · subst h1
        simp only [List.nil_append, List.cons_append, List.cons.injEq] at h
        exact absurd (by rw [← h.1]; exact List.mem_cons_self _ _ : '-' ∈ b :: ys) hy
  | cons a xs ih =>
    cases y with
    | nil =>
      rcases h2 with h2 | ⟨r, h2⟩
      · subst h2; simp at h
      · subst h2
        simp only [List.nil_append, List.cons_append, List.cons.injEq] at h
        exact absurd (by rw [← h.1]; exact List.mem_cons_self _ _ : '-' ∈ a :: xs) hx
    | cons b ys =>
      simp only [List.cons_append, List.cons.injEq] at h
      have hx' : '-' ∉ xs := fun hc => hx (List.mem_cons_of_mem _ hc)
      have hy' : '-' ∉ ys := fun hc => hy (List.mem_cons_of_mem _ hc)
      obtain ⟨hxy, ht⟩ := ih hx' hy' h.2
      exact ⟨by rw [h.1, hxy], ht⟩

theorem joinSegs_dashdash_inj :
    ∀ (xs ys : List (List Char)), xs ≠ [] → ys ≠ [] →
      (∀ s ∈ xs, '-' ∉ s) → (∀ s ∈ ys, '-' ∉ s) →
      joinSegs ['-', '-'] xs = joinSegs ['-', '-'] ys → xs = ys := by
  intro xs
  induction xs with
  | nil => intro ys h; exact absurd rfl h
  | cons x xs2 ih =>
    intro ys _ hysne hxd hyd h
    cases ys with
    | nil => exact absurd rfl hysne
    | cons y ys2 =>
      have hxd0 : '-' ∉ x := hxd x (by simp)
      have hyd0 : '-' ∉ y := hyd y (by simp)
      cases xs2 with
      | nil =>
        cases ys2 with
        | nil => simpa [joinSegs] using h
        | cons y2 ys3 =>
          rw [joinSegs, joinSegs_cons₂] at h
          have h' : x ++ ([] : List Char) =
              y ++ ('-' :: '-' :: joinSegs ['-', '-'] (y2 :: ys3)) := by
            simpa using h
          have := seg_append_inj hxd0 hyd0 (Or.inl rfl)
            (Or.inr ⟨'-' :: joinSegs ['-', '-'] (y2 :: ys3), rfl⟩) h'
          simp at this
      | cons x2 xs3 =>
        cases ys2 with
        | nil =>
          rw [joinSegs_cons₂, joinSegs] at h
          have h' : x ++ ('-' :: '-' :: joinSegs ['-', '-'] (x2 :: xs3)) =
              y ++ ([] : List Char) := by
            simpa using h
          have := seg_append_inj hxd0 hyd0
            (Or.inr ⟨'-' :: joinSegs ['-', '-'] (x2 :: xs3), rfl⟩) (Or.inl rfl) h'
          simp at this
        | cons y2 ys3 =>
          rw [joinSegs_cons₂, joinSegs_cons₂] at h
          have h' : x ++ ('-' :: '-' :: joinSegs ['-', '-'] (x2 :: xs3)) =
              y ++ ('-' :: '-' :: joinSegs ['-', '-'] (y2 :: ys3)) := by
            simpa using h
          obtain ⟨hxy, ht⟩ := seg_append_inj hxd0 hyd0
            (Or.inr ⟨'-' :: joinSegs ['-', '-'] (x2 :: xs3), rfl⟩)
            (Or.inr ⟨'-' :: joinSegs ['-', '-'] (y2 :: ys3), rfl⟩) h'
          simp only [List.cons.injEq, true_and] at ht
          have := ih (y2 :: ys3) (by simp) (by simp)
            (fun s hs => hxd s (List.mem_cons_of_mem _ hs))
            (fun s hs => hyd s (List.mem_cons_of_mem _ hs)) ht
          rw [hxy, this]

theorem stemLast_ne_nil {r : List PathSeg} (h : r ≠ []) : stemLast r ≠ [] := by
  cases r with
  | nil => exact absurd rfl h
  | cons s rest => cases rest <;> simp [stemLast]

/-- C9 counterexample: the two distinct input paths `d/a.p` and `d/a.q`
(both below the data root `d`) flatten to the same output name `a`, so the
mapping is not collision-free. -/
theorem c9_counterexample :
    to_output_name [['d']] [['d'], ['a', '.', 'p']] =
      to_output_name [['d']] [['d'], ['a', '.', 'q']] ∧
    ([['d'], ['a', '.', 'p']] : List PathSeg) ≠ [['d'], ['a', '.', 'q']] := by
  decide

/-- C9 (amended): the output name is a deterministic function of the input
path, and it is collision-free for paths below the data root whose
suffix-stripped relative paths differ and whose components contain neither
a dash nor a slash. -/
theorem c9_flatten_inj (dataDir p1 p2 r1 r2 : List PathSeg)
    (h1 : relativeTo dataDir p1 = some r1)
    (h2 : relativeTo dataDir p2 = some r2)
    (hne1 : r1 ≠ []) (hne2 : r2 ≠ [])
    (hd1 : ∀ s ∈ stemLast r1, '-' ∉ s ∧ '/' ∉ s)
    (hd2 : ∀ s ∈ stemLast r2, '-' ∉ s ∧ '/' ∉ s)
    (hstem : stemLast r1 ≠ stemLast r2) :
    to_output_name dataDir p1 ≠ to_output_name dataDir p2 := by
  have e1 : to_output_name dataDir p1 = replaceSlash (joinSegs ['/'] (stemLast r1)) := by
    simp [to_output_name, h1]
  have e2 : to_output_name dataDir p2 = replaceSlash (joinSegs ['/'] (stemLast r2)) := by
    simp [to_output_name, h2]
  rw [e1, e2, replaceSlash_joinSegs _ (fun s hs => (hd1 s hs).2),
    replaceSlash_joinSegs _ (fun s hs => (hd2 s hs).2)]
  intro h
  exact hstem (joinSegs_dashdash_inj _ _ (stemLast_ne_nil hne1)
    (stemLast_ne_nil hne2) (fun s hs => (hd1 s hs).1)
    (fun s hs => (hd2 s hs).1) h)

/-- C9 witness: two distinct dash-free paths below the root keep distinct
output names. -/
theorem c9_flatten_inj_witness :
    to_output_name [['d']] [['d'], ['x']] ≠ to_output_name [['d']] [['d'], ['y']] :=
  c9_flatten_inj [['d']] [['d'], ['x']] [['d'], ['y']] [['x']] [['y']]
    (by decide) (by decide) (by decide) (by decide) (by decide) (by decide)
    (by decide)

/- ---------------------------------------------------------------------
Lemmas about the page loop. -/

theorem joinFrom_nil (p : Nat) : joinFrom p [] = [] := by
  by_cases hp : p = 0 <;> simp [joinFrom, hp, joinPages]

theorem joinFrom_cons (p : Nat) (t : Text) (ts : List Text) :
    joinFrom p (t :: ts) =
      (if 0 < p then pageSep else []) ++ t ++ joinFrom (p + 1) ts := by
  by_cases hp : p = 0
  · subst hp; simp [joinFrom, joinPages]
  · simp [joinFrom, hp, Nat.pos_of_ne_zero hp, joinPages]

theorem get?_of_drop_eq_cons :
    ∀ {l : List Page} {n : Nat} {x : Page} {r : List Page},
      l.drop n = x :: r → l.get? n = some x := by
  intro l
  induction l with
  | nil => intro n x r h; simp at h
  | cons a as ih =>
    intro n x r h
    cases n with
    | zero => rw [List.drop_zero] at h; cases h; rfl
    | succ n => rw [List.drop_succ_cons] at h; exact ih h

theorem drop_succ_of_drop_eq_cons :
    ∀ {l : List Page} {n : Nat} {x : Page} {r : List Page},
      l.drop n = x :: r → l.drop (n + 1) = r := by
  intro l
  induction l with
  | nil => intro n x r h; simp at h
  | cons a as ih =>
    intro n x r h
    cases n with
    | zero => rw [List.drop_zero] at h; cases h; simp
    | succ n => rw [List.drop_succ_cons] at h; rw [List.drop_succ_cons]; exact ih h

/-- Without faults, the pipelined page loop completes, its accumulated
content is exactly the sequentially processed page texts joined in
ascending page order, and the chandra state evolves as in the sequential
reference. -/
theorem ocrLoop_no_fault (tess chandra : Img → Text) (flt : Faults)
    (doc : List Page) (tmp : FName) (ctx : PageCtx) (recent : List Entry)
    (hext : ∀ i, flt.extractFails i = false)
    (hocr : ∀ i, flt.ocrFails i = false) :
    ∀ (rest : List Page) (p_idx : Nat) (content : Text) (cs : ChandraState)
      (fs : FS) (snaps : List Snapshot), doc.drop p_idx = rest →
      ((ocrLoop tess chandra flt doc doc.length tmp ctx recent rest.length p_idx
          (render_task flt doc p_idx) content cs fs snaps).ok = true ∧
        (ocrLoop tess chandra flt doc doc.length tmp ctx recent rest.length p_idx
          (render_task flt doc p_idx) content cs fs snaps).content =
          content ++ joinFrom p_idx (seqProcessDoc tess chandra cs rest).1 ∧
        (ocrLoop tess chandra flt doc doc.length tmp ctx recent rest.length p_idx
          (render_task flt doc p_idx) content cs fs snaps).cs =
          (seqProcessDoc tess chandra cs rest).2) := by
  intro rest
  induction rest with
  | nil =>
    intro p_idx content cs fs snaps _
    refine ⟨rfl, ?_, rfl⟩
    simp [ocrLoop, seqProcessDoc, joinFrom_nil]
  | cons pg rest' ih =>
    intro p_idx content cs fs snaps hdrop
    have hget : doc.get? p_idx = some pg := get?_of_drop_eq_cons hdrop
    have hdrop' : doc.drop (p_idx + 1) = rest' := drop_succ_of_drop_eq_cons hdrop
    have hget' : doc[p_idx]? = some pg := by
      rw [← List.get?_eq_getElem?]; exact hget
    have htask : render_task flt doc p_idx = Except.ok (render_page pg) := by
      simp [render_task, hext p_idx, hget']
    have hlen : (pg :: rest').length = rest'.length + 1 := rfl
    rw [hlen]
    cases rest' with
    | nil =>
      simp only [ocrLoop, htask, hocr p_idx, if_false, Bool.false_eq_true]
      simp [ocrLoop, seqProcessDoc, joinFrom_cons, joinFrom_nil]
    | cons q rest'' =>
      have hlt : p_idx + 1 < doc.length := by
        have := congrArg List.length hdrop'
        rw [List.length_drop] at this
        simp at this
        omega
      have hrec := ih (p_idx + 1)
        (content ++ (if 0 < p_idx then pageSep else []) ++
          (processPage tess chandra cs (render_page pg)).1)
        (processPage tess chandra cs (render_page pg)).2.2
        (fs.set tmp (content ++ (if 0 < p_idx then pageSep else []) ++
          (processPage tess chandra cs (render_page pg)).1))
        (snaps ++ [save_progress (pageProg ctx p_idx doc.length recent)]) hdrop'
      simp only [ocrLoop, htask, hocr p_idx, if_false, Bool.false_eq_true, hlt,
        if_true] at *
      refine ⟨hrec.1, ?_, ?_⟩
      · rw [hrec.2.1]
        conv_rhs => rw [seqProcessDoc]
        simp [joinFrom_cons]
      · rw [hrec.2.2]
        conv_rhs => rw [seqProcessDoc]

/-- The page loop only ever writes the temporary path. -/
theorem ocrLoop_fs_other (tess chandra : Img → Text) (flt : Faults)
    (doc : List Page) (num_pages : Nat) (tmp : FName) (ctx : PageCtx)
    (recent : List Entry) :
    ∀ (r p_idx : Nat) (next : Except Unit (Option Img × Text)) (content : Text)
      (cs : ChandraState) (fs : FS) (snaps : List Snapshot) (n : FName),
      n ≠ tmp →
      (ocrLoop tess chandra flt doc num_pages tmp ctx recent r p_idx next
        content cs fs snaps).fs n = fs n := by
  intro r
  induction r with
  | zero => intro _ _ _ _ _ _ _ _; rfl
  | succ r ih =>
    intro p_idx next content cs fs snaps n hn
    cases next with
    | error e => rfl
    | ok extracted =>
      by_cases ho : flt.ocrFails p_idx
      · simp [ocrLoop, ho]
      · simp only [ocrLoop, ho, if_false, Bool.false_eq_true]
        rw [ih]
        · exact FS.get_set_ne _ _ _ _ hn
        · exact hn

/- ---------------------------------------------------------------------
C5: the one-page-ahead prefetch does not change the output. -/

/-- C5: when a file's processing completes, the written output equals the
sequential reference — the per-page texts in ascending page order joined by
the blank-line separator — and the chandra state evolves exactly as in
fully sequential processing; the prefetch changes nothing. -/
theorem c5_pipeline_refinement (tess chandra : Img → Text) (f : FileSpec)
    (cs : ChandraState) (ctx : PageCtx) (recent : List Entry) (fs : FS)
    (hopen : f.faults.openFails = false)
    (hext : ∀ i, f.faults.extractFails i = false)
    (hocr : ∀ i, f.faults.ocrFails i = false) :
    (ocr_one_file tess chandra f cs ctx recent fs).result =
      Except.ok f.doc.length ∧
    (ocr_one_file tess chandra f cs ctx recent fs).fs (mdPath f.name) =
      some (joinPages (seqProcessDoc tess chandra cs f.doc).1) ∧
    (ocr_one_file tess chandra f cs ctx recent fs).cs =
      (seqProcessDoc tess chandra cs f.doc).2 := by
  have h := ocrLoop_no_fault tess chandra f.faults f.doc (tmpPath f.name) ctx
    recent hext hocr f.doc 0 [] cs (fs.set (tmpPath f.name) []) [] (by simp)
  simp only [ocr_one_file, hopen, Bool.false_eq_true, if_false, h.1, if_true]
  refine ⟨trivial, ?_, h.2.2⟩
  rw [FS.get_set_self, h.2.1]
  simp [joinFrom]

/-- C5 witness: a two-page file (one native page, one falling back to the
VLM) produces exactly the sequential reference output. -/
theorem c5_pipeline_refinement_witness :
    (ocr_one_file (fun _ => []) (fun _ => [chD])
        ⟨['f'], ['f'], [⟨List.replicate 50 chA, 0⟩, ⟨[], 1⟩], 5, {}⟩ {}
        ⟨0, 1, 1, 0, ['f']⟩ [] (fun _ => none)).result =
      Except.ok ([⟨List.replicate 50 chA, 0⟩, (⟨[], 1⟩ : Page)] : List Page).length ∧
    (ocr_one_file (fun _ => []) (fun _ => [chD])
        ⟨['f'], ['f'], [⟨List.replicate 50 chA, 0⟩, ⟨[], 1⟩], 5, {}⟩ {}
        ⟨0, 1, 1, 0, ['f']⟩ [] (fun _ => none)).fs (mdPath ['f']) =
      some (joinPages (seqProcessDoc (fun _ => []) (fun _ => [chD]) {}
        [⟨List.replicate 50 chA, 0⟩, ⟨[], 1⟩]).1) ∧
    (ocr_one_file (fun _ => []) (fun _ => [chD])
        ⟨['f'], ['f'], [⟨List.replicate 50 chA, 0⟩, ⟨[], 1⟩], 5, {}⟩ {}
        ⟨0, 1, 1, 0, ['f']⟩ [] (fun _ => none)).cs =
      (seqProcessDoc (fun _ => []) (fun _ => [chD]) {}
        [⟨List.replicate 50 chA, 0⟩, ⟨[], 1⟩]).2 :=
  c5_pipeline_refinement (fun _ => []) (fun _ => [chD])
    ⟨['f'], ['f'], [⟨List.replicate 50 chA, 0⟩, ⟨[], 1⟩], 5, {}⟩ {}
    ⟨0, 1, 1, 0, ['f']⟩ [] (fun _ => none) rfl (fun _ => rfl) (fun _ => rfl)

/- ---------------------------------------------------------------------
C3: write-to-temp-then-rename and cleanup on error. -/

/-- C3 (amended): starting from a filesystem without the file's final
artifact, a successful run leaves the full artifact at the final path (with
the page count covering the whole document) and no temporary; an error
raised after the document was opened deletes both paths before re-raising;
an error while opening the document (which happens before the `try` block)
leaves the filesystem untouched — so the final path never holds a partial
artifact, but a pre-existing stale temporary survives an open failure.  No
other path is ever touched. -/
theorem c3_atomic_artifact (tess chandra : Img → Text) (f : FileSpec)
    (cs : ChandraState) (ctx : PageCtx) (recent : List Entry) (fs : FS)
    (hmd : fs (mdPath f.name) = none) :
    (∀ n, (ocr_one_file tess chandra f cs ctx recent fs).result = Except.ok n →
      n = f.doc.length ∧
      ((ocr_one_file tess chandra f cs ctx recent fs).fs (mdPath f.name)).isSome
        = true ∧
      (ocr_one_file tess chandra f cs ctx recent fs).fs (tmpPath f.name) = none) ∧
    ((ocr_one_file tess chandra f cs ctx recent fs).result = Except.error () →
      (ocr_one_file tess chandra f cs ctx recent fs).fs (mdPath f.name) = none ∧
      (f.faults.openFails = false →
        (ocr_one_file tess chandra f cs ctx recent fs).fs (tmpPath f.name)
          = none)) ∧
    (∀ m, m ≠ mdPath f.name → m ≠ tmpPath f.name →
      (ocr_one_file tess chandra f cs ctx recent fs).fs m = fs m) := by
  have hne : tmpPath f.name ≠ mdPath f.name := (mdPath_ne_tmpPath _ _).symm
  by_cases hopen : f.faults.openFails
  · simp only [ocr_one_file, hopen, if_true]
    refine ⟨?_, ?_, ?_⟩
    · intro n h; simp at h
    · intro _
      exact ⟨hmd, fun hof => by simp at hof⟩
    · intro m _ _; trivial
  · have hopen' : f.faults.openFails = false := by simpa using hopen
    simp only [ocr_one_file, hopen', Bool.false_eq_true, if_false]
    set lo := ocrLoop tess chandra f.faults f.doc f.doc.length (tmpPath f.name)
      ctx recent f.doc.length 0 (render_task f.faults f.doc 0) [] cs
      (fs.set (tmpPath f.name) []) [] with hlo
    have hother : ∀ m, m ≠ tmpPath f.name → lo.fs m = fs m := by
      intro m hm
      rw [hlo, ocrLoop_fs_other tess chandra f.faults f.doc f.doc.length
        (tmpPath f.name) ctx recent _ _ _ _ _ _ _ m hm]
      exact FS.get_set_ne _ _ _ _ hm
    cases hok : lo.ok
    · simp only [hok, Bool.false_eq_true, if_false]
      refine ⟨?_, ?_, ?_⟩
      · intro n h; simp at h
      · intro _
        refine ⟨by simp [FS.del], fun _ => ?_⟩
        rw [FS.get_del_ne _ _ _ hne]
        exact FS.get_del_self _ _
      · intro m h1 h2
        rw [FS.get_del_ne _ _ _ h1, FS.get_del_ne _ _ _ h2]
        exact hother m h2
    · simp only [hok, if_true]
      refine ⟨?_, ?_, ?_⟩
      · intro n h
        have hn : n = f.doc.length := by
          have := h.symm
          simp at this
          exact this
        refine ⟨hn, by simp [FS.set], ?_⟩
        rw [FS.get_set_ne _ _ _ _ hne]
        exact FS.get_del_self _ _
      · intro h; simp at h
      · intro m h1 h2
        rw [FS.get_set_ne _ _ _ _ h1, FS.get_del_ne _ _ _ h2]
        exact hother m h2

/-- C3 counterexample: an error while opening the document (raised before
the `try` block in `_ocr_one_file`) re-raises without deleting anything, so
a stale temporary artifact survives the error — contradicting the claim
that on any error both the temporary and final paths are deleted. -/
theorem c3_counterexample :
    (ocr_one_file (fun _ => []) (fun _ => [])
        ⟨['f'], ['f'], [], 0, { openFails := true }⟩ {} ⟨0, 1, 1, 0, ['f']⟩ []
        (fun m => if m = tmpPath ['f'] then some [chA] else none)).result =
      Except.error () ∧
    (ocr_one_file (fun _ => []) (fun _ => [])
        ⟨['f'], ['f'], [], 0, { openFails := true }⟩ {} ⟨0, 1, 1, 0, ['f']⟩ []
        (fun m => if m = tmpPath ['f'] then some [chA] else none)).fs
      (tmpPath ['f']) = some [chA] := by
  constructor
  · rfl
  · simp [ocr_one_file]

/-- C3 witness: a one-page no-fault file, starting with no final artifact. -/
theorem c3_atomic_artifact_witness :
    ((ocr_one_file (fun _ => []) (fun _ => [])
        ⟨['f'], ['f'], [⟨List.replicate 50 chA, 0⟩], 1, {}⟩ {}
        ⟨0, 1, 1, 0, ['f']⟩ [] (fun _ => none)).fs (mdPath ['f'])).isSome
      = true ∧
    (ocr_one_file (fun _ => []) (fun _ => [])
        ⟨['f'], ['f'], [⟨List.replicate 50 chA, 0⟩], 1, {}⟩ {}
        ⟨0, 1, 1, 0, ['f']⟩ [] (fun _ => none)).fs (tmpPath ['f']) = none ∧
    (ocr_one_file (fun _ => []) (fun _ => [])
        ⟨['f'], ['f'], [⟨List.replicate 50 chA, 0⟩], 1, {}⟩ {}
        ⟨0, 1, 1, 0, ['f']⟩ [] (fun _ => none)).fs [] = none := by
  have h := c3_atomic_artifact (fun _ => []) (fun _ => [])
    ⟨['f'], ['f'], [⟨List.replicate 50 chA, 0⟩], 1, {}⟩ {}
    ⟨0, 1, 1, 0, ['f']⟩ [] (fun _ => none) rfl
  have hres : (ocr_one_file (fun _ => []) (fun _ => [])
      ⟨['f'], ['f'], [⟨List.replicate 50 chA, 0⟩], 1, {}⟩ {}
      ⟨0, 1, 1, 0, ['f']⟩ [] (fun _ => none)).result = Except.ok 1 := rfl
  exact ⟨(h.1 1 hres).2.1, (h.1 1 hres).2.2, h.2.2 [] (by decide) (by decide)⟩

/- ---------------------------------------------------------------------
Batch-loop bookkeeping lemmas. -/

theorem runLoop_errors_le (tess chandra : Img → Text) (total : Nat) :
    ∀ (pend : List FileSpec) (i : Nat) (st : BatchSt),
      st.errors ≤ (runLoop tess chandra total pend i st).errors := by
  intro pend
  induction pend with
  | nil => intro i st; exact Nat.le_refl _
  | cons f rest ih =>
    intro i st
    cases hd : (st.fs (mdPath f.name)).isSome
    · simp only [runLoop, hd, Bool.false_eq_true, if_false]
      cases hres : (ocr_one_file tess chandra f st.cs
          ⟨st.done_count, i, total, st.errors, f.display⟩ st.recent st.fs).result with
      | ok np =>
        refine Nat.le_trans ?_ (ih (i + 1) (okSt total i f np _ st))
        simp [okSt]
      | error e =>
        refine Nat.le_trans ?_ (ih (i + 1) (errSt f _ st))
        simp [errSt]
    · simp only [runLoop, hd, if_true]
      refine Nat.le_trans ?_ (ih (i + 1) (skipSt f st))
      simp [skipSt]

theorem runLoop_visited (tess chandra : Img → Text) (total : Nat) :
    ∀ (pend : List FileSpec) (i : Nat) (st : BatchSt),
      (runLoop tess chandra total pend i st).visited =
        st.visited ++ pend.map (fun f => f.name) := by
  intro pend
  induction pend with
  | nil => intro i st; simp [runLoop]
  | cons f rest ih =>
    intro i st
    cases hd : (st.fs (mdPath f.name)).isSome
    · simp only [runLoop, hd, Bool.false_eq_true, if_false]
      cases hres : (ocr_one_file tess chandra f st.cs
          ⟨st.done_count, i, total, st.errors, f.display⟩ st.recent st.fs).result with
      | ok np =>
        rw [ih (i + 1) (okSt total i f np _ st)]
        simp [okSt]
      | error e =>
        rw [ih (i + 1) (errSt f _ st)]
        simp [errSt]
    · simp only [runLoop, hd, if_true]
      rw [ih (i + 1) (skipSt f st)]
      simp [skipSt]

theorem runLoop_err_acct (tess chandra : Img → Text) (total : Nat) :
    ∀ (pend : List FileSpec) (i : Nat) (st : BatchSt),
      st.errors = st.errlog.length → st.gcCount = st.errlog.length →
      (runLoop tess chandra total pend i st).errors =
        (runLoop tess chandra total pend i st).errlog.length ∧
      (runLoop tess chandra total pend i st).gcCount =
        (runLoop tess chandra total pend i st).errlog.length := by
  intro pend
  induction pend with
  | nil => intro i st h1 h2; exact ⟨h1, h2⟩
  | cons f rest ih =>
    intro i st h1 h2
    cases hd : (st.fs (mdPath f.name)).isSome
    · simp only [runLoop, hd, Bool.false_eq_true, if_false]
      cases hres : (ocr_one_file tess chandra f st.cs
          ⟨st.done_count, i, total, st.errors, f.display⟩ st.recent st.fs).result with
      | ok np =>
        refine ih (i + 1) (okSt total i f np _ st) ?_ ?_ <;> simp [okSt, h1, h2]
      | error e =>
        refine ih (i + 1) (errSt f _ st) ?_ ?_ <;> simp [errSt, h1, h2]
    · simp only [runLoop, hd, if_true]
      refine ih (i + 1) (skipSt f st) ?_ ?_ <;> simp [skipSt, h1, h2]

theorem runLoop_attempted (tess chandra : Img → Text) (total : Nat) :
    ∀ (pend : List FileSpec) (i : Nat) (st : BatchSt) (n : FName),
      n ∈ (runLoop tess chandra total pend i st).attempted →
      n ∈ st.attempted ∨ n ∈ pend.map (fun f => f.name) := by
  intro pend
  induction pend with
  | nil => intro i st n h; exact Or.inl h
  | cons f rest ih =>
    intro i st n h
    cases hd : (st.fs (mdPath f.name)).isSome
    · rw [runLoop] at h
      simp only [hd, Bool.false_eq_true, if_false] at h
      split at h
      · rcases ih _ _ n h with hin | hin
        · simp only [okSt, List.mem_append, List.mem_singleton] at hin
          rcases hin with hin | hin
          · exact Or.inl hin
          · exact Or.inr (by simp [hin])
        · exact Or.inr (by simp [hin])
      · rcases ih _ _ n h with hin | hin
        · simp only [errSt, List.mem_append, List.mem_singleton] at hin
          rcases hin with hin | hin
          · exact Or.inl hin
          · exact Or.inr (by simp [hin])
        · exact Or.inr (by simp [hin])
    · rw [runLoop] at h
      simp only [hd, if_true] at h
      rcases ih _ _ n h with hin | hin
      · simp only [skipSt] at hin
        exact Or.inl hin
      · exact Or.inr (by simp [hin])

/-- C6: every pending file is reached by the batch loop (no file-level error
aborts the batch); the error counter equals the number of logged per-file
failures, and each failure forces a memory-reclamation pass. -/
theorem c6_error_isolation (tess chandra : Img → Text) (files : List FileSpec)
    (fs : FS) :
    (run_ocr tess chandra files fs).visited =
      (files.filter (fun f => !(fs (mdPath f.name)).isSome)).map
        (fun f => f.name) ∧
    (run_ocr tess chandra files fs).errors =
      (run_ocr tess chandra files fs).errlog.length ∧
    (run_ocr tess chandra files fs).gcCount =
      (run_ocr tess chandra files fs).errors := by
  unfold run_ocr
  cases hp : (files.filter (fun f => !(fs (mdPath f.name)).isSome)).isEmpty
  · simp only [hp, Bool.false_eq_true, if_false]
    have h := runLoop_err_acct tess chandra files.length
      (files.filter (fun f => !(fs (mdPath f.name)).isSome)) 1
      { fs := fs, cs := {},
        done_count := (files.filter (fun f => (fs (mdPath f.name)).isSome)).length,
        errors := 0, recent := [], snaps := [], visited := [], attempted := [],
        errlog := [], completedFiles := 0, gcCount := 0 } rfl rfl
    refine ⟨?_, h.1, ?_⟩
    · rw [runLoop_visited]
      simp
    · rw [h.1, h.2]
  · simp only [hp, if_true]
    have hnil : files.filter (fun f => !(fs (mdPath f.name)).isSome) = [] :=
      List.isEmpty_iff.mp hp
    rw [hnil]
    simp

/- ---------------------------------------------------------------------
C4: resumability.  Helper facts about `_ocr_one_file`'s effect on the
filesystem, then preservation of artifacts across an error-free loop. -/

theorem ocr_one_file_fs_other (tess chandra : Img → Text) (f : FileSpec)
    (cs : ChandraState) (ctx : PageCtx) (recent : List Entry) (fs : FS)
    (m : FName) (h1 : m ≠ mdPath f.name) (h2 : m ≠ tmpPath f.name) :
    (ocr_one_file tess chandra f cs ctx recent fs).fs m = fs m := by
  by_cases hopen : f.faults.openFails
  · simp [ocr_one_file, hopen]
  · have hopen' : f.faults.openFails = false := by simpa using hopen
    simp only [ocr_one_file, hopen', Bool.false_eq_true, if_false]
    have hother : (ocrLoop tess chandra f.faults f.doc f.doc.length
        (tmpPath f.name) ctx recent f.doc.length 0
        (render_task f.faults f.doc 0) [] cs (fs.set (tmpPath f.name) []) []).fs m
        = (fs.set (tmpPath f.name) []) m :=
      ocrLoop_fs_other tess chandra f.faults f.doc f.doc.length (tmpPath f.name)
        ctx recent _ _ _ _ _ _ _ m h2
    cases hok : (ocrLoop tess chandra f.faults f.doc f.doc.length
        (tmpPath f.name) ctx recent f.doc.length 0
        (render_task f.faults f.doc 0) [] cs (fs.set (tmpPath f.name) []) []).ok
    · simp only [hok, Bool.false_eq_true, if_false]
      rw [FS.get_del_ne _ _ _ h1, FS.get_del_ne _ _ _ h2, hother]
      exact FS.get_set_ne _ _ _ _ h2
    · simp only [hok, if_true]
      rw [FS.get_set_ne _ _ _ _ h1, FS.get_del_ne _ _ _ h2, hother]
      exact FS.get_set_ne _ _ _ _ h2

theorem ocr_one_file_ok_pages (tess chandra : Img → Text) (f : FileSpec)
    (cs : ChandraState) (ctx : PageCtx) (recent : List Entry) (fs : FS)
    {np : Nat}
    (h : (ocr_one_file tess chandra f cs ctx recent fs).result = Except.ok np) :
    np = f.doc.length := by
  by_cases hopen : f.faults.openFails
  · simp [ocr_one_file, hopen] at h
  · have hopen' : f.faults.openFails = false := by simpa using hopen
    simp only [ocr_one_file, hopen', Bool.false_eq_true, if_false] at h
    split at h
    · simp at h
      omega
    · simp at h

theorem ocr_one_file_ok_md (tess chandra : Img → Text) (f : FileSpec)
    (cs : ChandraState) (ctx : PageCtx) (recent : List Entry) (fs : FS)
    {np : Nat}
    (h : (ocr_one_file tess chandra f cs ctx recent fs).result = Except.ok np) :
    ((ocr_one_file tess chandra f cs ctx recent fs).fs (mdPath f.name)).isSome
      = true := by
  by_cases hopen : f.faults.openFails
  · simp [ocr_one_file, hopen] at h
  · have hopen' : f.faults.openFails = false := by simpa using hopen
    simp only [ocr_one_file, hopen', Bool.false_eq_true, if_false] at h ⊢
    cases hok : (ocrLoop tess chandra f.faults f.doc f.doc.length
        (tmpPath f.name) ctx recent f.doc.length 0
        (render_task f.faults f.doc 0) [] cs (fs.set (tmpPath f.name) []) []).ok
    · rw [hok] at h
      simp at h
    · simp [FS.set]

theorem runLoop_no_error_keeps (tess chandra : Img → Text) (total : Nat) :
    ∀ (pend : List FileSpec) (i : Nat) (st : BatchSt),
      (runLoop tess chandra total pend i st).errors = st.errors →
      (∀ n, (st.fs (mdPath n)).isSome = true →
        ((runLoop tess chandra total pend i st).fs (mdPath n)).isSome = true) ∧
      (∀ f ∈ pend,
        ((runLoop tess chandra total pend i st).fs (mdPath f.name)).isSome
          = true) := by
  intro pend
  induction pend with
  | nil =>
    intro i st _
    exact ⟨fun n hn => hn, fun f hf => absurd hf (List.not_mem_nil f)⟩
  | cons f rest ih =>
    intro i st herr
    cases hd : (st.fs (mdPath f.name)).isSome
    case true =>
      simp only [runLoop, hd, if_true] at herr ⊢
      obtain ⟨k1, k2⟩ := ih (i + 1) (skipSt f st) (by rw [herr]; simp [skipSt])
      refine ⟨fun n hn => k1 n (by simpa [skipSt] using hn), ?_⟩
      intro g hg
      rcases List.mem_cons.mp hg with hg | hg
      · subst hg
        exact k1 _ (by simpa [skipSt] using hd)
      · exact k2 g hg
    case false =>
      simp only [runLoop, hd, Bool.false_eq_true, if_false] at herr ⊢
      cases hres : (ocr_one_file tess chandra f st.cs
          ⟨st.done_count, i, total, st.errors, f.display⟩ st.recent st.fs).result
        with
      | error e =>
        simp only [hres] at herr
        exfalso
        have hle := runLoop_errors_le tess chandra total rest (i + 1)
          (errSt f (ocr_one_file tess chandra f st.cs
            ⟨st.done_count, i, total, st.errors, f.display⟩ st.recent st.fs) st)
        rw [herr] at hle
        simp only [errSt] at hle
        omega
      | ok np =>
        simp only [hres] at herr
        obtain ⟨k1, k2⟩ := ih (i + 1)
          (okSt total i f np (ocr_one_file tess chandra f st.cs
            ⟨st.done_count, i, total, st.errors, f.display⟩ st.recent st.fs) st)
          (by rw [herr]; simp [okSt])
        refine ⟨?_, ?_⟩
        · intro n hn
          apply k1
          by_cases heq : n = f.name
          · subst heq
            simp only [okSt]
            exact ocr_one_file_ok_md tess chandra f st.cs _ st.recent st.fs hres
          · have hne1 : mdPath n ≠ mdPath f.name := fun hc => heq (mdPath_inj hc)
            have hne2 : mdPath n ≠ tmpPath f.name := mdPath_ne_tmpPath n f.name
            simp only [okSt]
            rw [ocr_one_file_fs_other tess chandra f st.cs _ st.recent st.fs _
              hne1 hne2]
            exact hn
        · intro g hg
          rcases List.mem_cons.mp hg with hg | hg
          · subst hg
            apply k1
            simp only [okSt]
            exact ocr_one_file_ok_md tess chandra g st.cs _ st.recent st.fs hres
          · exact k2 g hg

theorem run_ocr_errors_zero_artifacts (tess chandra : Img → Text)
    (files : List FileSpec) (fs : FS)
    (h : (run_ocr tess chandra files fs).errors = 0) :
    ∀ f ∈ files, ((run_ocr tess chandra files fs).fs (mdPath f.name)).isSome
      = true := by
  intro f hf
  unfold run_ocr at h ⊢
  cases hp : (files.filter (fun g => !(fs (mdPath g.name)).isSome)).isEmpty
  · simp only [hp, Bool.false_eq_true, if_false] at h ⊢
    obtain ⟨k1, k2⟩ := runLoop_no_error_keeps tess chandra files.length
      (files.filter (fun g => !(fs (mdPath g.name)).isSome)) 1
      { fs := fs, cs := {},
        done_count :=
          (files.filter (fun g => (fs (mdPath g.name)).isSome)).length,
        errors := 0, recent := [], snaps := [], visited := [], attempted := [],
        errlog := [], completedFiles := 0, gcCount := 0 } (by rw [h])
    by_cases hdone : (fs (mdPath f.name)).isSome = true
    · exact k1 f.name hdone
    · apply k2
      rw [List.mem_filter]
      exact ⟨hf, by simp [hdone]⟩
  · simp only [hp, if_true]
    have hnil : files.filter (fun g => !(fs (mdPath g.name)).isSome) = [] :=
      List.isEmpty_iff.mp hp
    show (fs (mdPath f.name)).isSome = true
    by_contra hnot
    have hmem : f ∈ files.filter (fun g => !(fs (mdPath g.name)).isSome) := by
      rw [List.mem_filter]
      exact ⟨hf, by simpa using hnot⟩
    rw [hnil] at hmem
    exact absurd hmem (List.not_mem_nil f)

theorem run_ocr_all_done (tess chandra : Img → Text) (files : List FileSpec)
    (fs : FS) (h : ∀ f ∈ files, (fs (mdPath f.name)).isSome = true) :
    (run_ocr tess chandra files fs).attempted = [] ∧
    (run_ocr tess chandra files fs).snaps = [save_progress
      { done := files.length, total := files.length, errors := 0,
        current_file := ['-'], current_page := none, current_pages_total := 0,
        recent_files := [] }] := by
  have hnil : files.filter (fun g => !(fs (mdPath g.name)).isSome) = [] := by
    rw [List.filter_eq_nil_iff]
    intro g hg
    simp [h g hg]
  unfold run_ocr
  rw [hnil]
  simp

/-- C4 (amended): a file whose artifact already exists when the batch starts
is never handed to the file processor; the loop re-checks existence
immediately before each file and skips when the artifact is present; and
provided the first run finished with zero errors, a second run over the
same input set processes zero files and its status artifact reports
`done = total` and `errors = 0`. -/
theorem c4_skip_done_and_idempotent (tess chandra : Img → Text)
    (files : List FileSpec) (fs : FS) :
    (∀ name : FName, (fs (mdPath name)).isSome = true →
      name ∉ (run_ocr tess chandra files fs).attempted) ∧
    (∀ (f : FileSpec) (rest : List FileSpec) (i : Nat) (st : BatchSt),
      (st.fs (mdPath f.name)).isSome = true →
      runLoop tess chandra files.length (f :: rest) i st =
        runLoop tess chandra files.length rest (i + 1) (skipSt f st)) ∧
    ((run_ocr tess chandra files fs).errors = 0 →
      (run_ocr tess chandra files (run_ocr tess chandra files fs).fs).attempted
        = [] ∧
      (run_ocr tess chandra files (run_ocr tess chandra files fs).fs).snaps =
        [save_progress
          { done := files.length, total := files.length, errors := 0,
            current_file := ['-'], current_page := none,
            current_pages_total := 0, recent_files := [] }] ∧
      (save_progress
        { done := files.length, total := files.length, errors := 0,
          current_file := ['-'], current_page := none,
          current_pages_total := 0, recent_files := [] }).done = files.length ∧
      (save_progress
        { done := files.length, total := files.length, errors := 0,
          current_file := ['-'], current_page := none,
          current_pages_total := 0, recent_files := [] }).errors = 0) := by
  refine ⟨?_, ?_, ?_⟩
  · intro name hsome hmem
    unfold run_ocr at hmem
    cases hp : (files.filter (fun g => !(fs (mdPath g.name)).isSome)).isEmpty
    · simp only [hp, Bool.false_eq_true, if_false] at hmem
      rcases runLoop_attempted tess chandra files.length _ _ _ name hmem with
        hin | hin
      · exact absurd hin (List.not_mem_nil name)
      · rcases List.mem_map.mp hin with ⟨g, hg, hgname⟩
        have := (List.mem_filter.mp hg).2
        rw [hgname] at this
        simp [hsome] at this
    · simp only [hp, if_true] at hmem
      exact absurd hmem (List.not_mem_nil name)
  · intro f rest i st hdone
    simp [runLoop, hdone]
  · intro herr
    have hall := run_ocr_errors_zero_artifacts tess chandra files fs herr
    have hdone := run_ocr_all_done tess chandra files
      (run_ocr tess chandra files fs).fs hall
    exact ⟨hdone.1, hdone.2, rfl, rfl⟩

/-- C4 counterexample: a batch whose single file fails in the first run
(document open error) leaves no artifact, so the second run on the
unchanged input set processes that file again — the claim's unconditional
"second run processes zero files and reports errors == 0" is false. -/
theorem c4_counterexample :
    (run_ocr (fun _ => []) (fun _ => [])
      [⟨['f'], ['f'], [], 0, { openFails := true }⟩]
      (run_ocr (fun _ => []) (fun _ => [])
        [⟨['f'], ['f'], [], 0, { openFails := true }⟩] (fun _ => none)).fs
      ).attempted = [['f']] ∧
    (run_ocr (fun _ => []) (fun _ => [])
      [⟨['f'], ['f'], [], 0, { openFails := true }⟩]
      (fun _ => none)).errors = 1 := by
  constructor <;> rfl

/-- C4 witness: an error-free one-file run, after which the second run
skips everything; and a pre-existing artifact is never processed. -/
theorem c4_skip_done_witness :
    (run_ocr (fun _ => []) (fun _ => [])
      [⟨['f'], ['f'], [⟨List.replicate 50 chA, 0⟩], 1, {}⟩]
      (run_ocr (fun _ => []) (fun _ => [])
        [⟨['f'], ['f'], [⟨List.replicate 50 chA, 0⟩], 1, {}⟩]
        (fun _ => none)).fs).attempted = [] ∧
    (['f'] : FName) ∉ (run_ocr (fun _ => []) (fun _ => [])
      [⟨['f'], ['f'], [⟨List.replicate 50 chA, 0⟩], 1, {}⟩]
      (fun m => if m = mdPath ['f'] then some [] else none)).attempted := by
  constructor
  · exact ((c4_skip_done_and_idempotent (fun _ => []) (fun _ => [])
      [⟨['f'], ['f'], [⟨List.replicate 50 chA, 0⟩], 1, {}⟩]
      (fun _ => none)).2.2 rfl).1
  · exact (c4_skip_done_and_idempotent (fun _ => []) (fun _ => [])
      [⟨['f'], ['f'], [⟨List.replicate 50 chA, 0⟩], 1, {}⟩]
      (fun m => if m = mdPath ['f'] then some [] else none)).1 ['f'] (by simp)

/- ---------------------------------------------------------------------
C7: the fallback model is loaded at most once per batch. -/

/-- Invariant on the chandra state: the load body has run at most once, and
never while the state is still unloaded. -/
def csInv (s : ChandraState) : Prop :=
  s.loadCount ≤ 1 ∧ (s.loaded = false → s.loadCount = 0)

theorem load_chandra_inv {s : ChandraState} (h : csInv s) :
    csInv (load_chandra s) := by
  unfold load_chandra
  cases hl : s.loaded
  · rw [if_neg (by simp)]
    have h0 := h.2 hl
    exact ⟨by simp [h0], fun h' => by simp at h'⟩
  · rw [if_pos rfl]
    exact h

theorem processPage_cs_inv (tess chandra : Img → Text) (cs : ChandraState)
    (ext : Option Img × Text) (h : csInv cs) :
    csInv (processPage tess chandra cs ext).2.2 := by
  rcases ext with ⟨img?, nt⟩
  cases img? with
  | none => exact h
  | some img =>
    simp only [processPage]
    by_cases hq : tesseract_quality_ok (tess img) = true
    · rw [if_pos hq]; exact h
    · rw [if_neg hq]; exact load_chandra_inv h

theorem ocrLoop_cs_inv (tess chandra : Img → Text) (flt : Faults)
    (doc : List Page) (num_pages : Nat) (tmp : FName) (ctx : PageCtx)
    (recent : List Entry) :
    ∀ (r p_idx : Nat) (next : Except Unit (Option Img × Text)) (content : Text)
      (cs : ChandraState) (fs : FS) (snaps : List Snapshot), csInv cs →
      csInv (ocrLoop tess chandra flt doc num_pages tmp ctx recent r p_idx next
        content cs fs snaps).cs := by
  intro r
  induction r with
  | zero => intro _ _ _ cs _ _ h; exact h
  | succ r ih =>
    intro p_idx next content cs fs snaps h
    cases next with
    | error e => exact h
    | ok e =>
      simp only [ocrLoop]
      by_cases ho : flt.ocrFails p_idx = true
      · rw [if_pos ho]; exact h
      · rw [if_neg ho]
        exact ih _ _ _ _ _ _ (processPage_cs_inv tess chandra cs e h)

theorem ocr_one_file_cs_inv (tess chandra : Img → Text) (f : FileSpec)
    (cs : ChandraState) (ctx : PageCtx) (recent : List Entry) (fs : FS)
    (h : csInv cs) :
    csInv (ocr_one_file tess chandra f cs ctx recent fs).cs := by
  by_cases hopen : f.faults.openFails = true
  · simp only [ocr_one_file]
    rw [if_pos hopen]
    exact h
  · simp only [ocr_one_file]
    rw [if_neg hopen]
    have hloop := ocrLoop_cs_inv tess chandra f.faults f.doc f.doc.length
      (tmpPath f.name) ctx recent f.doc.length 0 (render_task f.faults f.doc 0)
      [] cs (fs.set (tmpPath f.name) []) [] h
    by_cases hok : (ocrLoop tess chandra f.faults f.doc f.doc.length
        (tmpPath f.name) ctx recent f.doc.length 0
        (render_task f.faults f.doc 0) [] cs (fs.set (tmpPath f.name) []) []).ok
        = true
    · rw [if_pos hok]; exact hloop
    · rw [if_neg hok]; exact hloop

theorem runLoop_cs_inv (tess chandra : Img → Text) (total : Nat) :
    ∀ (pend : List FileSpec) (i : Nat) (st : BatchSt), csInv st.cs →
      csInv (runLoop tess chandra total pend i st).cs := by
  intro pend
  induction pend with
  | nil => intro i st h; exact h
  | cons f rest ih =>
    intro i st h
    cases hd : (st.fs (mdPath f.name)).isSome
    · simp only [runLoop, hd, Bool.false_eq_true, if_false]
      cases hres : (ocr_one_file tess chandra f st.cs
          ⟨st.done_count, i, total, st.errors, f.display⟩ st.recent st.fs).result
        with
      | ok np =>
        refine ih (i + 1) (okSt total i f np _ st) ?_
        simpa [okSt] using
          ocr_one_file_cs_inv tess chandra f st.cs _ st.recent st.fs h
      | error e =>
        refine ih (i + 1) (errSt f _ st) ?_
        simpa [errSt] using
          ocr_one_file_cs_inv tess chandra f st.cs _ st.recent st.fs h
    · simp only [runLoop, hd, if_true]
      refine ih (i + 1) (skipSt f st) ?_
      simpa [skipSt] using h

/-- Pages that take the native shortcut or pass the quality gate leave the
chandra state untouched. -/
theorem processPage_cs_eq (tess chandra : Img → Text) (cs : ChandraState)
    (pg : Page)
    (h : NATIVE_TEXT_THRESHOLD ≤ alphaCount pg.embedded ∨
      tesseract_quality_ok (tess pg.image) = true) :
    (processPage tess chandra cs (render_page pg)).2.2 = cs := by
  unfold render_page
  by_cases he : NATIVE_TEXT_THRESHOLD ≤ alphaCount pg.embedded
  · rw [if_pos he]; rfl
  · rw [if_neg he]
    rcases h with h | h
    · exact absurd h he
    · simp only [processPage]
      rw [if_pos h]

theorem render_task_pass (tess chandra : Img → Text) (flt : Faults)
    (doc : List Page) (j : Nat)
    (hall : ∀ pg ∈ doc, NATIVE_TEXT_THRESHOLD ≤ alphaCount pg.embedded ∨
      tesseract_quality_ok (tess pg.image) = true) :
    ∀ e, render_task flt doc j = Except.ok e →
      ∀ cs : ChandraState, (processPage tess chandra cs e).2.2 = cs := by
  intro e he cs
  unfold render_task at he
  by_cases hE : flt.extractFails j = true
  · rw [if_pos hE] at he
    exact absurd he (by simp)
  · rw [if_neg hE] at he
    cases hg : doc.get? j with
    | none => rw [hg] at he; simp at he
    | some pg =>
      rw [hg] at he
      simp only [Except.ok.injEq] at he
      rw [← he]
      exact processPage_cs_eq tess chandra cs pg (hall pg (List.get?_mem hg))

theorem ocrLoop_cs_pass (tess chandra : Img → Text) (flt : Faults)
    (doc : List Page) (num_pages : Nat) (tmp : FName) (ctx : PageCtx)
    (recent : List Entry)
    (hall : ∀ pg ∈ doc, NATIVE_TEXT_THRESHOLD ≤ alphaCount pg.embedded ∨
      tesseract_quality_ok (tess pg.image) = true) :
    ∀ (r p_idx : Nat) (next : Except Unit (Option Img × Text)) (content : Text)
      (cs : ChandraState) (fs : FS) (snaps : List Snapshot),
      (∀ e, next = Except.ok e →
        ∀ cs' : ChandraState, (processPage tess chandra cs' e).2.2 = cs') →
      (ocrLoop tess chandra flt doc num_pages tmp ctx recent r p_idx next
        content cs fs snaps).cs = cs := by
  intro r
  induction r with
  | zero => intro _ _ _ cs _ _ _; rfl
  | succ r ih =>
    intro p_idx next content cs fs snaps hnext
    cases next with
    | error e => rfl
    | ok e =>
      simp only [ocrLoop]
      by_cases ho : flt.ocrFails p_idx = true
      · rw [if_pos ho]
      · rw [if_neg ho]
        have hnext' : ∀ e',
            (if p_idx + 1 < num_pages then render_task flt doc (p_idx + 1)
              else Except.ok e) = Except.ok e' →
            ∀ cs' : ChandraState, (processPage tess chandra cs' e').2.2 = cs' := by
          intro e' he' cs'
          by_cases hlt : p_idx + 1 < num_pages
          · rw [if_pos hlt] at he'
            exact render_task_pass tess chandra flt doc (p_idx + 1) hall e' he' cs'
          · rw [if_neg hlt] at he'
            exact hnext e' he' cs'
        exact (ih _ _ _ _ _ _ hnext').trans (hnext e rfl cs)

theorem ocr_one_file_cs_pass (tess chandra : Img → Text) (f : FileSpec)
    (cs : ChandraState) (ctx : PageCtx) (recent : List Entry) (fs : FS)
    (hall : ∀ pg ∈ f.doc, NATIVE_TEXT_THRESHOLD ≤ alphaCount pg.embedded ∨
      tesseract_quality_ok (tess pg.image) = true) :
    (ocr_one_file tess chandra f cs ctx recent fs).cs = cs := by
  by_cases hopen : f.faults.openFails = true
  · simp only [ocr_one_file]
    rw [if_pos hopen]
  · simp only [ocr_one_file]
    rw [if_neg hopen]
    have hloop := ocrLoop_cs_pass tess chandra f.faults f.doc f.doc.length
      (tmpPath f.name) ctx recent hall f.doc.length 0
      (render_task f.faults f.doc 0) [] cs (fs.set (tmpPath f.name) []) []
      (render_task_pass tess chandra f.faults f.doc 0 hall)
    by_cases hok : (ocrLoop tess chandra f.faults f.doc f.doc.length
        (tmpPath f.name) ctx recent f.doc.length 0
        (render_task f.faults f.doc 0) [] cs (fs.set (tmpPath f.name) []) []).ok
        = true
    · rw [if_pos hok]; exact hloop
    · rw [if_neg hok]; exact hloop

theorem runLoop_cs_pass (tess chandra : Img → Text) (total : Nat) :
    ∀ (pend : List FileSpec) (i : Nat) (st : BatchSt),
      (∀ f ∈ pend, ∀ pg ∈ f.doc,
        NATIVE_TEXT_THRESHOLD ≤ alphaCount pg.embedded ∨
          tesseract_quality_ok (tess pg.image) = true) →
      (runLoop tess chandra total pend i st).cs = st.cs := by
  intro pend
  induction pend with
  | nil => intro i st _; rfl
  | cons f rest ih =>
    intro i st hall
    cases hd : (st.fs (mdPath f.name)).isSome
    · simp only [runLoop, hd, Bool.false_eq_true, if_false]
      cases hres : (ocr_one_file tess chandra f st.cs
          ⟨st.done_count, i, total, st.errors, f.display⟩ st.recent st.fs).result
        with
      | ok np =>
        rw [ih (i + 1) (okSt total i f np _ st)
          (fun g hg => hall g (List.mem_cons_of_mem _ hg))]
        simp only [okSt]
        exact ocr_one_file_cs_pass tess chandra f st.cs _ st.recent st.fs
          (hall f (List.mem_cons_self _ _))
      | error e =>
        rw [ih (i + 1) (errSt f _ st)
          (fun g hg => hall g (List.mem_cons_of_mem _ hg))]
        simp only [errSt]
        exact ocr_one_file_cs_pass tess chandra f st.cs _ st.recent st.fs
          (hall f (List.mem_cons_self _ _))
    · simp only [runLoop, hd, if_true]
      rw [ih (i + 1) (skipSt f st)
        (fun g hg => hall g (List.mem_cons_of_mem _ hg))]
      simp [skipSt]

/-- C7: loading the fallback model is a no-op once the state is loaded; a
whole batch run performs the expensive load at most once; and if every page
takes the native shortcut or passes the quality gate, the load never
happens at all. -/
theorem c7_lazy_single_load (tess chandra : Img → Text)
    (files : List FileSpec) (fs : FS) :
    (∀ s : ChandraState, s.loaded = true → load_chandra s = s) ∧
    (run_ocr tess chandra files fs).cs.loadCount ≤ 1 ∧
    ((∀ f ∈ files, ∀ pg ∈ f.doc,
        NATIVE_TEXT_THRESHOLD ≤ alphaCount pg.embedded ∨
          tesseract_quality_ok (tess pg.image) = true) →
      (run_ocr tess chandra files fs).cs.loadCount = 0) := by
  refine ⟨?_, ?_, ?_⟩
  · intro s hl
    simp [load_chandra, hl]
  · unfold run_ocr
    cases hp : (files.filter (fun g => !(fs (mdPath g.name)).isSome)).isEmpty
    · simp only [hp, Bool.false_eq_true, if_false]
      exact (runLoop_cs_inv tess chandra files.length _ 1 _
        ⟨Nat.zero_le _, fun _ => rfl⟩).1
    · simp only [hp, if_true]
      exact Nat.zero_le _
  · intro hall
    unfold run_ocr
    cases hp : (files.filter (fun g => !(fs (mdPath g.name)).isSome)).isEmpty
    · simp only [hp, Bool.false_eq_true, if_false]
      rw [runLoop_cs_pass tess chandra files.length _ 1 _
        (fun g hg => hall g (List.mem_filter.mp hg).1)]
    · simp only [hp, if_true]

/-- C7 witness: loading an already-loaded state is the identity, and a batch
whose single page passes the gate natively never loads the model. -/
theorem c7_lazy_single_load_witness :
    load_chandra ⟨true, 1⟩ = ⟨true, 1⟩ ∧
    (run_ocr (fun _ => []) (fun _ => [])
      [⟨['f'], ['f'], [⟨List.replicate 50 chA, 0⟩], 1, {}⟩]
      (fun _ => none)).cs.loadCount = 0 := by
  have h := c7_lazy_single_load (fun _ => []) (fun _ => [])
    [⟨['f'], ['f'], [⟨List.replicate 50 chA, 0⟩], 1, {}⟩] (fun _ => none)
  exact ⟨h.1 ⟨true, 1⟩ rfl, h.2.2 (by decide)⟩

/- ---------------------------------------------------------------------
C8: the serialized recent-file history. -/

theorem save_progress_recent_len (p : Progress) :
    (save_progress p).recent_files.length = min 10 p.recent_files.length := by
  simp only [save_progress, List.length_drop]
  omega

theorem ocrLoop_snaps_bounded (tess chandra : Img → Text) (flt : Faults)
    (doc : List Page) (num_pages : Nat) (tmp : FName) (ctx : PageCtx)
    (recent : List Entry) :
    ∀ (r p_idx : Nat) (next : Except Unit (Option Img × Text)) (content : Text)
      (cs : ChandraState) (fs : FS) (snaps : List Snapshot),
      (∀ s ∈ snaps, s.recent_files.length ≤ 10) →
      ∀ s ∈ (ocrLoop tess chandra flt doc num_pages tmp ctx recent r p_idx next
        content cs fs snaps).snaps, s.recent_files.length ≤ 10 := by
  intro r
  induction r with
  | zero => intro _ _ _ _ _ snaps h; exact h
  | succ r ih =>
    intro p_idx next content cs fs snaps h
    have h' : ∀ s ∈ snaps ++
        [save_progress (pageProg ctx p_idx num_pages recent)],
        s.recent_files.length ≤ 10 := by
      intro s hs
      rcases List.mem_append.mp hs with hs | hs
      · exact h s hs
      · rw [List.mem_singleton] at hs
        subst hs
        rw [save_progress_recent_len]
        exact Nat.min_le_left _ _
    cases next with
    | error e => exact h'
    | ok e =>
      simp only [ocrLoop]
      by_cases ho : flt.ocrFails p_idx = true
      · rw [if_pos ho]; exact h'
      · rw [if_neg ho]
        exact ih _ _ _ _ _ _ h'

theorem ocr_one_file_snaps_bounded (tess chandra : Img → Text) (f : FileSpec)
    (cs : ChandraState) (ctx : PageCtx) (recent : List Entry) (fs : FS) :
    ∀ s ∈ (ocr_one_file tess chandra f cs ctx recent fs).snaps,
      s.recent_files.length ≤ 10 := by
  by_cases hopen : f.faults.openFails = true
  · simp only [ocr_one_file]
    rw [if_pos hopen]
    intro s hs
    exact absurd hs (List.not_mem_nil s)
  · simp only [ocr_one_file]
    rw [if_neg hopen]
    have hloop := ocrLoop_snaps_bounded tess chandra f.faults f.doc f.doc.length
      (tmpPath f.name) ctx recent f.doc.length 0 (render_task f.faults f.doc 0)
      [] cs (fs.set (tmpPath f.name) []) []
      (fun s hs => absurd hs (List.not_mem_nil s))
    by_cases hok : (ocrLoop tess chandra f.faults f.doc f.doc.length
        (tmpPath f.name) ctx recent f.doc.length 0
        (render_task f.faults f.doc 0) [] cs (fs.set (tmpPath f.name) []) []).ok
        = true
    · rw [if_pos hok]; exact hloop
    · rw [if_neg hok]; exact hloop

theorem runLoop_c8 (tess chandra : Img → Text) (total : Nat)
    (files0 : List FileSpec) :
    ∀ (pend : List FileSpec) (i : Nat) (st : BatchSt),
      (∀ g ∈ pend, g ∈ files0) →
      (∀ s ∈ st.snaps, s.recent_files.length ≤ 10) →
      st.recent.length = st.completedFiles →
      (∀ e ∈ st.recent, ∃ f, f ∈ files0 ∧
        e = ⟨f.display, f.doc.length, f.duration,
          f.duration / max f.doc.length 1⟩) →
      ((∀ s ∈ (runLoop tess chandra total pend i st).snaps,
          s.recent_files.length ≤ 10) ∧
        (runLoop tess chandra total pend i st).recent.length =
          (runLoop tess chandra total pend i st).completedFiles ∧
        (∀ e ∈ (runLoop tess chandra total pend i st).recent, ∃ f, f ∈ files0 ∧
          e = ⟨f.display, f.doc.length, f.duration,
            f.duration / max f.doc.length 1⟩)) := by
  intro pend
  induction pend with
  | nil => intro i st _ h1 h2 h3; exact ⟨h1, h2, h3⟩
  | cons f rest ih =>
    intro i st hsub h1 h2 h3
    cases hd : (st.fs (mdPath f.name)).isSome
    case true =>
      simp only [runLoop, hd, if_true]
      refine ih (i + 1) (skipSt f st)
        (fun g hg => hsub g (List.mem_cons_of_mem _ hg)) ?_ ?_ ?_
      · simpa [skipSt] using h1
      · simpa [skipSt] using h2
      · simpa [skipSt] using h3
    case false =>
      simp only [runLoop, hd, Bool.false_eq_true, if_false]
      cases hres : (ocr_one_file tess chandra f st.cs
          ⟨st.done_count, i, total, st.errors, f.display⟩ st.recent st.fs).result
        with
      | error e =>
        refine ih (i + 1) (errSt f _ st)
          (fun g hg => hsub g (List.mem_cons_of_mem _ hg)) ?_ ?_ ?_
        · intro s hs
          simp only [errSt] at hs
          rcases List.mem_append.mp hs with hs | hs
          · exact h1 s hs
          · exact ocr_one_file_snaps_bounded tess chandra f st.cs _ st.recent
              st.fs s hs
        · simpa [errSt] using h2
        · simpa [errSt] using h3
      | ok np =>
        have hnp : np = f.doc.length :=
          ocr_one_file_ok_pages tess chandra f st.cs _ st.recent st.fs hres
        refine ih (i + 1) (okSt total i f np _ st)
          (fun g hg => hsub g (List.mem_cons_of_mem _ hg)) ?_ ?_ ?_
        · intro s hs
          simp only [okSt, List.mem_append, List.mem_singleton] at hs
          rcases hs with (hs | hs) | hs
          · exact h1 s hs
          · exact ocr_one_file_snaps_bounded tess chandra f st.cs _ st.recent
              st.fs s hs
          · subst hs
            rw [save_progress_recent_len]
            exact Nat.min_le_left _ _
        · simp only [okSt, List.length_append, List.length_singleton]
          simp [h2]
        · intro e he
          simp only [okSt, List.mem_append, List.mem_singleton] at he
          rcases he with he | he
          · exact h3 e he
          · subst he
            exact ⟨f, hsub f (List.mem_cons_self _ _), by rw [hnp]⟩

/-- C8: every serialized snapshot's recent-file history is the last ten
completed-file entries (so its length is `min 10 k` after `k` completions,
and never exceeds ten), and every entry records the file's display name,
page count, duration and per-page duration. -/
theorem c8_recent_history (tess chandra : Img → Text) (files : List FileSpec)
    (fs : FS) :
    (∀ p : Progress,
      (save_progress p).recent_files =
        p.recent_files.drop (p.recent_files.length - 10) ∧
      (save_progress p).recent_files.length = min 10 p.recent_files.length) ∧
    (∀ s ∈ (run_ocr tess chandra files fs).snaps,
      s.recent_files.length ≤ 10) ∧
    (run_ocr tess chandra files fs).recent.length =
      (run_ocr tess chandra files fs).completedFiles ∧
    (∀ e ∈ (run_ocr tess chandra files fs).recent, ∃ f, f ∈ files ∧
      e = ⟨f.display, f.doc.length, f.duration,
        f.duration / max f.doc.length 1⟩) := by
  have hmain : (∀ s ∈ (run_ocr tess chandra files fs).snaps,
      s.recent_files.length ≤ 10) ∧
      (run_ocr tess chandra files fs).recent.length =
        (run_ocr tess chandra files fs).completedFiles ∧
      (∀ e ∈ (run_ocr tess chandra files fs).recent, ∃ f, f ∈ files ∧
        e = ⟨f.display, f.doc.length, f.duration,
          f.duration / max f.doc.length 1⟩) := by
    unfold run_ocr
    cases hp : (files.filter (fun g => !(fs (mdPath g.name)).isSome)).isEmpty
    · simp only [hp, Bool.false_eq_true, if_false]
      exact runLoop_c8 tess chandra files.length files _ 1 _
        (fun g hg => (List.mem_filter.mp hg).1)
        (fun s hs => absurd hs (List.not_mem_nil s)) rfl
        (fun e he => absurd he (List.not_mem_nil e))
    · simp only [hp, if_true]
      refine ⟨?_, rfl, ?_⟩
      · intro s hs
        rw [List.mem_singleton] at hs
        subst hs
        rw [save_progress_recent_len]
        exact Nat.min_le_left _ _
      · intro e he
        exact absurd he (List.not_mem_nil e)
  exact ⟨fun p => ⟨rfl, save_progress_recent_len p⟩, hmain.1, hmain.2.1,
    hmain.2.2⟩

/-- C8 witness: concrete serializations and a one-file run whose single
history entry carries name, pages, duration and per-page duration. -/
theorem c8_recent_history_witness :
    (save_progress ⟨3, 4, 0, ['-'], none, 0, []⟩).recent_files.length =
      min 10 ([] : List Entry).length ∧
    (save_progress ⟨0, 0, 0, ['-'], none, 0, []⟩).recent_files.length ≤ 10 ∧
    (∃ f, f ∈ [(⟨['f'], ['f'], [⟨List.replicate 50 chA, 0⟩], 1, {}⟩ :
        FileSpec)] ∧
      (⟨['f'], 1, 1, 1⟩ : Entry) = ⟨f.display, f.doc.length, f.duration,
        f.duration / max f.doc.length 1⟩) := by
  refine ⟨?_, ?_, ?_⟩
  · exact ((c8_recent_history (fun _ => []) (fun _ => []) [] (fun _ => none)).1
      ⟨3, 4, 0, ['-'], none, 0, []⟩).2
  · exact (c8_recent_history (fun _ => []) (fun _ => []) [] (fun _ => none)).2.1
      _ (List.Mem.head _)
  · exact (c8_recent_history (fun _ => []) (fun _ => [])
      [⟨['f'], ['f'], [⟨List.replicate 50 chA, 0⟩], 1, {}⟩]
      (fun _ => none)).2.2.2 ⟨['f'], 1, 1, 1⟩ (by decide)

end BatchOcr
